/-
Verification of the freezer-inventory ledger application
(src/streamlit_app.py) against its natural-language specification.

The Python script is a straight-line Streamlit program.  Its state is
`st.session_state.log`, a list of dicts with keys "Coordinate",
"Description", "Timestamp".  We embed the relevant operations as pure
Lean functions over a list of `Entry`, with the wall-clock timestamp
passed in as an explicit `now : String` argument and UI effects
(st.warning / st.error / st.success) reflected as explicit result values.
-/
import Mathlib

set_option linter.unusedVariables false

namespace FreezerApp

/-! ## Python string primitives

`str.strip()` with no argument removes leading and trailing whitespace.
For the ASCII inputs this app manipulates the relevant whitespace
characters are space, tab, newline, carriage return, vertical tab and
form feed. -/

def isPySpace (c : Char) : Bool :=
  c = ' ' || c = '\t' || c = '\n' || c = '\r' || c = '\x0b' || c = '\x0c'

def stripChars (cs : List Char) : List Char :=
  ((cs.dropWhile isPySpace).reverse.dropWhile isPySpace).reverse

/-- Python `s.strip()`. -/
def pyStrip (s : String) : String :=
  ⟨stripChars s.data⟩

/-- The text-cleaning step the app applies to raw OCR output:
`texts[0].description.strip()` (src/streamlit_app.py lines 102 and 106).
The spec calls this operation `normalize`.  Note the code only strips
leading/trailing whitespace; it performs no interior folding. -/
def normalize (s : String) : String :=
  pyStrip s

/-- Python `" | ".join(...)` over a list of strings. -/
def joinSep : List String → String
  | [] => ""
  | [x] => x
  | x :: y :: xs => x ++ " | " ++ joinSep (y :: xs)

/-- The fragment-combining step of `process_with_llm`
(src/streamlit_app.py lines 127 and 165):
`" | ".join([text for text in ocr_results if text.strip()])`.
The spec calls this operation `combine`. -/
def combine (fragments : List String) : String :=
  joinSep (fragments.filter (fun t => pyStrip t ≠ ""))

/-- The coordinate normalization the spec postulates for comparisons
(case- and whitespace-normalization): lower-case the stripped string. -/
def normCoord (s : String) : String :=
  ⟨(stripChars s.data).map Char.toLower⟩

/-! ## The inventory ledger -/

/-- One row of `st.session_state.log`: a dict
`{"Coordinate": ..., "Description": ..., "Timestamp": ...}`. -/
structure Entry where
  Coordinate : String
  Description : String
  Timestamp : String
deriving DecidableEq

/-- The outcomes of the "Add to inventory" handler that do not append
(each is surfaced as `st.warning` in the code; the spec names the
duplicate case `DuplicateCoordinateError`). -/
inductive AddError where
  | blankCoordinate
  | blankDescription
  | duplicateCoordinate
deriving DecidableEq

/-- The failing outcome of the "Update existing coordinate" handler
(`st.warning(f"Coordinate {coord} not found in inventory.")`; the spec
names it `NotFoundError`).  Blank inputs are rejected before the search
loop runs, exactly as in `add`. -/
inductive UpdateError where
  | blankCoordinate
  | blankDescription
  | notFound
deriving DecidableEq

/-- The "Add to inventory" handler (src/streamlit_app.py lines 193-214).
Returns the ledger after the click together with the warning raised, if
any.  The duplicate check is
`existing_coords = [entry["Coordinate"] for entry in st.session_state.log];
if coord in existing_coords: ...` — exact string comparison on the raw
coordinate. -/
def addHandler (log : List Entry) (coord desc now : String) :
    List Entry × Option AddError :=
  if pyStrip coord = "" then (log, some .blankCoordinate)
  else if pyStrip desc = "" then (log, some .blankDescription)
  else if (log.map (·.Coordinate)).contains coord then
    (log, some .duplicateCoordinate)
  else (log ++ [⟨coord, desc, now⟩], none)

/-- The search-and-replace loop of the "Update existing coordinate"
handler (src/streamlit_app.py lines 224-233): scan in order, replace the
first entry whose `Coordinate` equals `coord` with a fresh dict, set the
`updated` flag, and `break`. -/
def updateLoop (coord desc now : String) : List Entry → List Entry × Bool
  | [] => ([], false)
  | e :: rest =>
    if e.Coordinate = coord then (⟨coord, desc, now⟩ :: rest, true)
    else
      let p := updateLoop coord desc now rest
      (e :: p.1, p.2)

/-- The full "Update existing coordinate" handler
(src/streamlit_app.py lines 217-239), blank-input validation included. -/
def updateHandler (log : List Entry) (coord desc now : String) :
    List Entry × Option UpdateError :=
  if pyStrip coord = "" then (log, some .blankCoordinate)
  else if pyStrip desc = "" then (log, some .blankDescription)
  else
    let p := updateLoop coord desc now log
    if p.2 then (p.1, none) else (log, some .notFound)

/-- The "Remove last entry" handler (src/streamlit_app.py lines 281-285).
The `pop()` only runs under `if st.session_state.log:`, so on an empty
ledger nothing happens and nothing is returned. -/
def removeLast (log : List Entry) : Option Entry × List Entry :=
  if log.isEmpty then (none, log) else (log.getLast?, log.dropLast)

/-- The "Clear all entries" handler (src/streamlit_app.py lines 288-292):
`st.session_state.log.clear()`. -/
def clearLog (log : List Entry) : List Entry :=
  []

/-- Ledger states reachable from the empty session-start state through
the four mutating handlers. -/
inductive Reachable : List Entry → Prop
  | empty : Reachable []
  | add (log coord desc now) : Reachable log →
      Reachable (addHandler log coord desc now).1
  | update (log coord desc now) : Reachable log →
      Reachable (updateHandler log coord desc now).1
  | pop (log) : Reachable log → Reachable (removeLast log).2
  | clear (log) : Reachable log → Reachable (clearLog log)

/-! ## The OCR boundary

`ocr_bytes` (src/streamlit_app.py lines 86-108) calls
`client.text_detection`.  Depending on configuration this is the gRPC
SDK client or the `VisionViaREST` wrapper (lines 23-35).  Both calls may
raise a Python exception before a response object is ever produced: the
REST wrapper does `requests.post(..., timeout=15)` (raises on timeout)
followed by `r.raise_for_status()` (raises on an HTTP error status), and
neither call site is wrapped in try/except.  We therefore model the
external call's outcome as `Except NetError VisionResp`: `Except.error`
is a raised exception, `Except.ok` a response object, whose
error-message field (present in both the gRPC and the REST shape) and
text list are what lines 92-106 inspect. -/

inductive NetError where
  | timeout
  | httpError (status : Nat)
  | providerException (msg : String)
deriving DecidableEq

structure VisionResp where
  errorMsg : Option String
  texts : List String
deriving DecidableEq

/-- `ocr_bytes`: result is `Except.error e` when the external call raised
(the exception propagates — there is no try/except), otherwise
`Except.ok (userMessage?, returnedText)` per lines 92-108. -/
def ocr_bytes (call : Except NetError VisionResp) :
    Except NetError (Option String × String) :=
  match call with
  | .error e => .error e
  | .ok r =>
    match r.errorMsg with
    | some m => .ok (some ("Google Vision error: " ++ m), "")
    | none =>
      match r.texts with
      | [] => .ok (none, "")
      | t :: _ => .ok (none, pyStrip t)

/-- `run_ocr` (lines 110-121): run `ocr_bytes` over the uploaded images
in order.  An exception raised by any `ocr_bytes` call propagates out of
the loop. -/
def run_ocr : List (Except NetError VisionResp) → Except NetError (List String)
  | [] => .ok []
  | c :: cs =>
    match ocr_bytes c with
    | .error e => .error e
    | .ok (_, t) =>
      match run_ocr cs with
      | .error e => .error e
      | .ok ts => .ok (t :: ts)

/-- One top-to-bottom run of the script with files uploaded
(lines 170-214 of src/streamlit_app.py), reduced to its effect on the
ledger.  Python semantics: an exception raised inside `run_ocr` aborts
the script run, so no statement after it — in particular the
"Add to inventory" handler — executes, and the ledger is left as it was.
When OCR completes, the user may edit the description and click "Add";
`editedDesc` is the text-area content at click time. -/
def scriptRun (log : List Entry) (calls : List (Except NetError VisionResp))
    (coord editedDesc now : String) (addClicked : Bool) : List Entry :=
  match run_ocr calls with
  | .error _ => log
  | .ok _ => if addClicked then (addHandler log coord editedDesc now).1 else log

/-! ## CSV export

Lines 244-268 of src/streamlit_app.py build
`df = pd.DataFrame(st.session_state.log)`, sort it with
`df.sort_values('Coordinate')`, and serialize with
`df[["Coordinate", "Description"]].to_csv(index=False).encode("utf-8")`
(and `df.to_csv(index=False).encode("utf-8")` for the full export).

`to_csv` writes one header row, then one row per entry, each row
terminated by `"\n"`, fields separated by `","`.  A field is quoted
(csv.QUOTE_MINIMAL) exactly when it contains the delimiter, the quote
character, or a CR/LF, and embedded quote characters are doubled.
`.encode("utf-8")` is the bijective UTF-8 encoding of that string; we
work at the string level.  Sorting of Python strings is lexicographic on
code points. -/

/-- Code-point lexicographic order on character lists: Python's `<=` on
`str`, which is the order `df.sort_values('Coordinate')` sorts by. -/
def lexLe : List Char → List Char → Bool
  | [], _ => true
  | _ :: _, [] => false
  | a :: as, b :: bs =>
    if a.toNat < b.toNat then true
    else if b.toNat < a.toNat then false
    else lexLe as bs

theorem lexLe_total : ∀ a b : List Char, lexLe a b = true ∨ lexLe b a = true
  | [], _ => Or.inl rfl
  | _ :: _, [] => Or.inr rfl
  | a :: as, b :: bs => by
    rcases Nat.lt_trichotomy a.toNat b.toNat with h | h | h
    · exact Or.inl (by simp [lexLe, h])
    · have h1 : ¬ a.toNat < b.toNat := by omega
      have h2 : ¬ b.toNat < a.toNat := by omega
      rcases lexLe_total as bs with ih | ih
      · exact Or.inl (by simp [lexLe, h1, h2, ih])
      · exact Or.inr (by simp [lexLe, h1, h2, ih])
    · exact Or.inr (by simp [lexLe, h])

theorem lexLe_trans :
    ∀ a b c : List Char, lexLe a b = true → lexLe b c = true → lexLe a c = true
  | [], _, _, _, _ => rfl
  | _ :: _, [], _, h1, _ => by simp [lexLe] at h1
  | _ :: _, _ :: _, [], _, h2 => by simp [lexLe] at h2
  | a :: as, b :: bs, c :: cs, h1, h2 => by
    by_cases hab : a.toNat < b.toNat
    · by_cases hbc : b.toNat < c.toNat
      · have hac : a.toNat < c.toNat := Nat.lt_trans hab hbc
        simp [lexLe, hac]
      · by_cases hcb : c.toNat < b.toNat
        · simp [lexLe, hbc, hcb] at h2
        · have hac : a.toNat < c.toNat := by omega
          simp [lexLe, hac]
    · by_cases hba : b.toNat < a.toNat
      · simp [lexLe, hab, hba] at h1
      · have h1' : lexLe as bs = true := by simpa [lexLe, hab, hba] using h1
        by_cases hbc : b.toNat < c.toNat
        · have hac : a.toNat < c.toNat := by omega
          simp [lexLe, hac]
        · by_cases hcb : c.toNat < b.toNat
          · simp [lexLe, hbc, hcb] at h2
          · have h2' : lexLe bs cs = true := by simpa [lexLe, hbc, hcb] using h2
            have hac : ¬ a.toNat < c.toNat := by omega
            have hca : ¬ c.toNat < a.toNat := by omega
            simp [lexLe, hac, hca, lexLe_trans as bs cs h1' h2']

/-- Comparison by coordinate, with the code-point lexicographic string
order. -/
def coordLe (a b : Entry) : Prop :=
  lexLe a.Coordinate.data b.Coordinate.data = true

instance : DecidableRel coordLe := fun a b =>
  instDecidableEqBool (lexLe a.Coordinate.data b.Coordinate.data) true

instance : IsTotal Entry coordLe :=
  ⟨fun a b => lexLe_total a.Coordinate.data b.Coordinate.data⟩

instance : IsTrans Entry coordLe :=
  ⟨fun a b c h1 h2 =>
    lexLe_trans a.Coordinate.data b.Coordinate.data c.Coordinate.data h1 h2⟩

/-- `df.sort_values('Coordinate')` as a sort of the entry list by the
lexicographic order on the coordinate string.  (pandas' default
quicksort and this insertion sort agree on any list whose coordinates
are pairwise distinct, which `add` enforces for reachable ledgers.) -/
def sortLog (log : List Entry) : List Entry :=
  List.insertionSort coordLe log

/-- Does csv.QUOTE_MINIMAL quote this field? -/
def needsQuote (f : List Char) : Bool :=
  f.any (fun c => c = ',' || c = '"' || c = '\n' || c = '\r')

/-- Double every quote character (the body of a quoted CSV field). -/
def dupQ : List Char → List Char
  | [] => []
  | c :: cs => if c = '"' then '"' :: '"' :: dupQ cs else c :: dupQ cs

/-- Serialize one CSV field. -/
def escField (f : List Char) : List Char :=
  if needsQuote f then '"' :: (dupQ f ++ ['"']) else f

/-- Join serialized fields with the `,` delimiter. -/
def rowChars : List (List Char) → List Char
  | [] => []
  | [f] => escField f
  | f :: g :: fs => escField f ++ ',' :: rowChars (g :: fs)

/-- A full CSV file: every record, the header included, is followed by
a `\n` terminator. -/
def csvChars (records : List (List (List Char))) : List Char :=
  records.flatMap (fun r => rowChars r ++ ['\n'])

/-- The `Coordinate,Description` export (line 253). -/
def exportPairsCsv (log : List Entry) : String :=
  ⟨csvChars (["Coordinate".data, "Description".data] ::
    (sortLog log).map (fun e => [e.Coordinate.data, e.Description.data]))⟩

/-- The full export with timestamps (line 262). -/
def exportFullCsv (log : List Entry) : String :=
  ⟨csvChars (["Coordinate".data, "Description".data, "Timestamp".data] ::
    (sortLog log).map
      (fun e => [e.Coordinate.data, e.Description.data, e.Timestamp.data]))⟩

/-! ## CSV parsing (a standard RFC-4180-style reader, used to state the
round-trip property) -/

/-- Split at every occurrence of `sep` that is outside quotes (quote
parity tracked through `inQ`); returns the first chunk and the list of
later chunks. -/
def splitQA (sep : Char) : Bool → List Char → List Char × List (List Char)
  | _, [] => ([], [])
  | inQ, c :: rest =>
    if c = sep ∧ inQ = false then
      let p := splitQA sep false rest
      ([], p.1 :: p.2)
    else
      let p := splitQA sep (if c = '"' then !inQ else inQ) rest
      (c :: p.1, p.2)

/-- All chunks of a quote-aware split. -/
def splitAll (sep : Char) (cs : List Char) : List (List Char) :=
  (splitQA sep false cs).1 :: (splitQA sep false cs).2

/-- Unescape the body of a quoted field: doubled quotes collapse, a
single quote closes the field.  The flag records that the previous
character was a quote whose meaning is still undecided. -/
def unquoteAux : Bool → List Char → List Char
  | _, [] => []
  | false, c :: rest =>
    if c = '"' then unquoteAux true rest else c :: unquoteAux false rest
  | true, c :: rest =>
    if c = '"' then '"' :: unquoteAux false rest else []

def unquote (cs : List Char) : List Char :=
  unquoteAux false cs

/-- Parse one CSV field back to its content. -/
def unesc (f : List Char) : List Char :=
  match f with
  | '"' :: rest => unquote rest
  | _ => f

/-- Parse one CSV record. -/
def parseRecord (l : List Char) : List String :=
  (splitAll ',' l).map (fun f => ⟨unesc f⟩)

/-- Parse a CSV file: split into lines at unquoted `\n`, drop the empty
chunk after the final row terminator, parse each record. -/
def parseCsv (s : String) : List (List String) :=
  let ls := splitAll '\n' s.data
  let ls := if ls.getLast? = some [] then ls.dropLast else ls
  ls.map parseRecord

/-! ## Lemmas about the ledger operations -/

theorem updateLoop_nomatch (coord desc now : String) :
    ∀ log : List Entry, (∀ e ∈ log, e.Coordinate ≠ coord) →
      updateLoop coord desc now log = (log, false)
  | [], _ => rfl
  | e :: rest, h => by
    have he : e.Coordinate ≠ coord := h e (.head _)
    have ih := updateLoop_nomatch coord desc now rest (fun x hx => h x (.tail _ hx))
    simp [updateLoop, he, ih]

theorem updateLoop_match (coord desc now : String) :
    ∀ (pre : List Entry) (m : Entry) (post : List Entry),
      (∀ e ∈ pre, e.Coordinate ≠ coord) → m.Coordinate = coord →
      updateLoop coord desc now (pre ++ m :: post) =
        (pre ++ (⟨coord, desc, now⟩ : Entry) :: post, true)
  | [], m, post, _, hm => by simp [updateLoop, hm]
  | e :: pre, m, post, h, hm => by
    have he : e.Coordinate ≠ coord := h e (.head _)
    have ih := updateLoop_match coord desc now pre m post
      (fun x hx => h x (.tail _ hx)) hm
    simp [updateLoop, he, ih]

/-- Decompose a list at the first entry matching a coordinate. -/
theorem exists_first_match (coord : String) :
    ∀ log : List Entry, (∃ e ∈ log, e.Coordinate = coord) →
      ∃ pre m post, log = pre ++ m :: post ∧ m.Coordinate = coord ∧
        ∀ e ∈ pre, e.Coordinate ≠ coord
  | [], h => by simp at h
  | e :: rest, h => by
    by_cases he : e.Coordinate = coord
    · exact ⟨[], e, rest, rfl, he, by simp⟩
    · have h' : ∃ x ∈ rest, x.Coordinate = coord := by
        rcases h with ⟨x, hx, hxc⟩
        cases hx with
        | head => exact absurd hxc he
        | tail _ hx => exact ⟨x, hx, hxc⟩
      rcases exists_first_match coord rest h' with ⟨pre, m, post, hsplit, h2, h3⟩
      refine ⟨e :: pre, m, post, by rw [hsplit]; rfl, h2, ?_⟩
      intro x hx
      cases hx with
      | head => exact he
      | tail _ hx => exact h3 x hx

theorem removeLast_concat (init : List Entry) (e : Entry) :
    removeLast (init ++ [e]) = (some e, init) := by
  unfold removeLast
  rw [if_neg (by simp)]
  rw [List.getLast?_concat, List.dropLast_concat]

theorem updateLoop_keeps_last (coord desc now : String) (e : Entry)
    (he : e.Coordinate ≠ coord) :
    ∀ init : List Entry,
      ∃ init2, (updateLoop coord desc now (init ++ [e])).1 = init2 ++ [e]
  | [] => ⟨[], by simp [updateLoop, he]⟩
  | a :: init => by
    by_cases ha : a.Coordinate = coord
    · exact ⟨⟨coord, desc, now⟩ :: init, by simp [updateLoop, ha]⟩
    · rcases updateLoop_keeps_last coord desc now e he init with ⟨init2, h2⟩
      exact ⟨a :: init2, by simp [updateLoop, ha, h2]⟩

theorem updateHandler_keeps_last (init : List Entry) (e : Entry)
    (coord desc now : String) (he : e.Coordinate ≠ coord) :
    ∃ init2, (updateHandler (init ++ [e]) coord desc now).1 = init2 ++ [e] := by
  unfold updateHandler
  by_cases h1 : pyStrip coord = ""
  · exact ⟨init, by rw [if_pos h1]⟩
  · rw [if_neg h1]
    by_cases h2 : pyStrip desc = ""
    · exact ⟨init, by rw [if_pos h2]⟩
    · rw [if_neg h2]
      rcases updateLoop_keeps_last coord desc now e he init with ⟨init2, hl⟩
      by_cases hf : (updateLoop coord desc now (init ++ [e])).2
      · exact ⟨init2, by simp only [hf, if_pos]; exact hl⟩
      · exact ⟨init, by simp only [Bool.not_eq_true] at hf; simp only [hf]; rfl⟩

/-! ## Claims C1, C3, C4, C5 -/

/-- C1: on a click of "Add to inventory" with non-blank coordinate and
description, when an entry with that exact coordinate already exists,
the handler rejects the add (the `DuplicateCoordinateError` warning) and
the ledger — in particular the existing entry's description and
timestamp — is unchanged. -/
theorem c1_add_duplicate_rejected (log : List Entry) (coord desc now : String)
    (h1 : pyStrip coord ≠ "") (h2 : pyStrip desc ≠ "")
    (h3 : ∃ e ∈ log, e.Coordinate = coord) :
    addHandler log coord desc now = (log, some AddError.duplicateCoordinate) := by
  have hc : (log.map (·.Coordinate)).contains coord = true := by
    rcases h3 with ⟨e, he, hec⟩
    simp only [List.contains, List.elem_eq_mem, decide_eq_true_eq]
    exact List.mem_map.mpr ⟨e, he, hec⟩
  simp only [addHandler, h1, h2, hc, if_neg, if_pos, ite_false, ite_true]

theorem c1_witness :
    pyStrip "A1" ≠ "" ∧ pyStrip "Y" ≠ "" ∧
    addHandler [⟨"A1", "X", "t0"⟩] "A1" "Y" "t1" =
      ([⟨"A1", "X", "t0"⟩], some AddError.duplicateCoordinate) :=
  ⟨by decide, by decide,
    c1_add_duplicate_rejected [⟨"A1", "X", "t0"⟩] "A1" "Y" "t1"
      (by decide) (by decide) ⟨⟨"A1", "X", "t0"⟩, by decide⟩⟩

/-- C3: on a click of "Update existing coordinate" with non-blank inputs,
when some entry has the given coordinate, the handler succeeds, replaces
the first matching entry's description and timestamp in place (same
position in insertion order) and leaves the length unchanged. -/
theorem c3_update_replaces_in_place (log : List Entry) (coord desc now : String)
    (h1 : pyStrip coord ≠ "") (h2 : pyStrip desc ≠ "")
    (h3 : ∃ e ∈ log, e.Coordinate = coord) :
    ∃ pre m post, log = pre ++ m :: post ∧ m.Coordinate = coord ∧
      (∀ e ∈ pre, e.Coordinate ≠ coord) ∧
      updateHandler log coord desc now =
        (pre ++ (⟨coord, desc, now⟩ : Entry) :: post, none) ∧
      (pre ++ (⟨coord, desc, now⟩ : Entry) :: post).length = log.length := by
  rcases exists_first_match coord log h3 with ⟨pre, m, post, hsplit, hm, hpre⟩
  subst hsplit
  refine ⟨pre, m, post, rfl, hm, hpre, ?_, by simp⟩
  have hl := updateLoop_match coord desc now pre m post hpre hm
  simp [updateHandler, h1, h2, hl]

theorem c3_witness :
    pyStrip "A1" ≠ "" ∧ pyStrip "Y" ≠ "" ∧
    ∃ pre m post,
      ([⟨"C3", "W", "t0"⟩, ⟨"A1", "X", "t0"⟩] : List Entry) = pre ++ m :: post ∧
      m.Coordinate = "A1" ∧ (∀ e ∈ pre, e.Coordinate ≠ "A1") ∧
      updateHandler [⟨"C3", "W", "t0"⟩, ⟨"A1", "X", "t0"⟩] "A1" "Y" "t1" =
        (pre ++ (⟨"A1", "Y", "t1"⟩ : Entry) :: post, none) ∧
      (pre ++ (⟨"A1", "Y", "t1"⟩ : Entry) :: post).length =
        ([⟨"C3", "W", "t0"⟩, ⟨"A1", "X", "t0"⟩] : List Entry).length :=
  ⟨by decide, by decide,
    c3_update_replaces_in_place [⟨"C3", "W", "t0"⟩, ⟨"A1", "X", "t0"⟩]
      "A1" "Y" "t1" (by decide) (by decide) ⟨⟨"A1", "X", "t0"⟩, by decide⟩⟩

/-- C4: on a click of "Update existing coordinate" with non-blank inputs,
when no entry has the given coordinate, the handler fails with the
not-found warning (`NotFoundError`) and the ledger is unchanged — same
entries, same length, same order. -/
theorem c4_update_missing_not_found (log : List Entry) (coord desc now : String)
    (h1 : pyStrip coord ≠ "") (h2 : pyStrip desc ≠ "")
    (h : ∀ e ∈ log, e.Coordinate ≠ coord) :
    updateHandler log coord desc now = (log, some UpdateError.notFound) := by
  simp [updateHandler, h1, h2, updateLoop_nomatch coord desc now log h]

theorem c4_witness :
    pyStrip "A1" ≠ "" ∧ pyStrip "Y" ≠ "" ∧
    updateHandler [⟨"B2", "Z", "t0"⟩] "A1" "Y" "t1" =
      ([⟨"B2", "Z", "t0"⟩], some UpdateError.notFound) :=
  ⟨by decide, by decide,
    c4_update_missing_not_found [⟨"B2", "Z", "t0"⟩] "A1" "Y" "t1"
      (by decide) (by decide) (by decide)⟩

/-- C5: "Remove last entry" on an empty ledger is a silent no-op (the
pop is guarded, nothing is returned, no error); on a non-empty ledger it
removes and returns the entry most recently appended in insertion order,
reducing the length by exactly one.  The third conjunct separates
insertion order from update recency: after an update that did not touch
the last entry, the removed entry is still the last appended one. -/
theorem c5_remove_last_spec (log : List Entry) :
    (log = [] → removeLast log = (none, log)) ∧
    (∀ init e, log = init ++ [e] →
      removeLast log = (some e, init) ∧ init.length = log.length - 1) ∧
    (∀ init e coord desc now, log = init ++ [e] → e.Coordinate ≠ coord →
      ∃ init2, (updateHandler log coord desc now).1 = init2 ++ [e] ∧
        removeLast (updateHandler log coord desc now).1 = (some e, init2)) := by
  refine ⟨fun h => by subst h; rfl, ?_, ?_⟩
  · rintro init e rfl
    exact ⟨removeLast_concat init e, by simp⟩
  · rintro init e coord desc now rfl he
    rcases updateHandler_keeps_last init e coord desc now he with ⟨init2, h2⟩
    exact ⟨init2, h2, by rw [h2]; exact removeLast_concat init2 e⟩

theorem c5_witness :
    removeLast [] = (none, []) ∧
    removeLast [⟨"A1", "X", "t0"⟩, ⟨"B2", "Z", "t1"⟩] =
      (some ⟨"B2", "Z", "t1"⟩, [⟨"A1", "X", "t0"⟩]) ∧
    ∃ init2,
      (updateHandler [⟨"A1", "X", "t0"⟩, ⟨"B2", "Z", "t1"⟩] "A1" "Y" "t2").1 =
        init2 ++ [⟨"B2", "Z", "t1"⟩] ∧
      removeLast
          (updateHandler [⟨"A1", "X", "t0"⟩, ⟨"B2", "Z", "t1"⟩] "A1" "Y" "t2").1 =
        (some ⟨"B2", "Z", "t1"⟩, init2) :=
  ⟨(c5_remove_last_spec []).1 rfl,
    ((c5_remove_last_spec [⟨"A1", "X", "t0"⟩, ⟨"B2", "Z", "t1"⟩]).2.1
      [⟨"A1", "X", "t0"⟩] ⟨"B2", "Z", "t1"⟩ rfl).1,
    (c5_remove_last_spec [⟨"A1", "X", "t0"⟩, ⟨"B2", "Z", "t1"⟩]).2.2
      [⟨"A1", "X", "t0"⟩] ⟨"B2", "Z", "t1"⟩ "A1" "Y" "t2" rfl (by decide)⟩

/-! ## Claim C2: the uniqueness invariant -/

theorem addHandler_nodup (log : List Entry) (c d n : String)
    (h : (log.map (·.Coordinate)).Nodup) :
    (((addHandler log c d n).1).map (·.Coordinate)).Nodup := by
  unfold addHandler
  by_cases h1 : pyStrip c = ""
  · simpa [h1]
  rw [if_neg h1]
  by_cases h2 : pyStrip d = ""
  · simpa [h2]
  rw [if_neg h2]
  by_cases hc : (log.map (·.Coordinate)).contains c = true
  · rw [if_pos hc]
    exact h
  · rw [if_neg hc]
    have hmem : c ∉ log.map (·.Coordinate) := by
      simpa [List.contains, List.elem_eq_mem] using hc
    simp only [List.map_append, List.map_cons, List.map_nil]
    rw [List.nodup_append]
    refine ⟨h, List.nodup_singleton _, ?_⟩
    intro x hx hx1
    rw [List.mem_singleton] at hx1
    exact hmem (hx1 ▸ hx)

theorem updateLoop_map (c d n : String) :
    ∀ log : List Entry,
      ((updateLoop c d n log).1).map (·.Coordinate) = log.map (·.Coordinate)
  | [] => rfl
  | e :: rest => by
    by_cases he : e.Coordinate = c
    · simp [updateLoop, he]
    · simp [updateLoop, he, updateLoop_map c d n rest]

theorem updateHandler_map (log : List Entry) (c d n : String) :
    ((updateHandler log c d n).1).map (·.Coordinate) = log.map (·.Coordinate) := by
  unfold updateHandler
  by_cases h1 : pyStrip c = ""
  · rw [if_pos h1]
  rw [if_neg h1]
  by_cases h2 : pyStrip d = ""
  · rw [if_pos h2]
  rw [if_neg h2]
  by_cases hf : (updateLoop c d n log).2
  · simp only [hf, if_pos]
    exact updateLoop_map c d n log
  · simp only [Bool.not_eq_true] at hf
    simp [hf]

/-- C2 counterexample: coordinates are compared by exact string equality,
so the normalized-equal coordinates "A1" and "a1" can coexist in a
reachable ledger state, contradicting case-insensitive uniqueness. -/
theorem c2_counterexample :
    Reachable [⟨"A1", "X", "t1"⟩, ⟨"a1", "Y", "t2"⟩] ∧
    normCoord "A1" = normCoord "a1" ∧
    ¬ (([⟨"A1", "X", "t1"⟩, ⟨"a1", "Y", "t2"⟩] : List Entry).map
        (fun e => normCoord e.Coordinate)).Nodup := by
  refine ⟨?_, by decide, by decide⟩
  have h1 : (addHandler [] "A1" "X" "t1").1 = [⟨"A1", "X", "t1"⟩] := by decide
  have h2 : (addHandler [⟨"A1", "X", "t1"⟩] "a1" "Y" "t2").1 =
      [⟨"A1", "X", "t1"⟩, ⟨"a1", "Y", "t2"⟩] := by decide
  have r1 : Reachable [⟨"A1", "X", "t1"⟩] :=
    h1 ▸ Reachable.add [] "A1" "X" "t1" Reachable.empty
  exact h2 ▸ Reachable.add [⟨"A1", "X", "t1"⟩] "a1" "Y" "t2" r1

/-- C2 amended: in every reachable ledger state no two entries share the
same coordinate compared as exact strings (case- and
whitespace-sensitive).  Enforced at `add`; `update` preserves the
coordinate list, `pop`/`clear` only remove entries. -/
theorem c2_exact_coordinate_nodup (log : List Entry) (h : Reachable log) :
    (log.map (·.Coordinate)).Nodup := by
  induction h with
  | empty => simp
  | add log c d n _ ih => exact addHandler_nodup log c d n ih
  | update log c d n _ ih => rw [updateHandler_map]; exact ih
  | pop log _ ih =>
    unfold removeLast
    by_cases he : log.isEmpty
    · simpa [he]
    · simp only [he, Bool.false_eq_true, if_false, ite_false]
      exact List.Nodup.sublist ((List.dropLast_sublist log).map (·.Coordinate)) ih
  | clear log _ _ => simp [clearLog]

theorem c2_witness :
    (([⟨"A1", "X", "t1"⟩, ⟨"a1", "Y", "t2"⟩] : List Entry).map
      (·.Coordinate)).Nodup :=
  c2_exact_coordinate_nodup [⟨"A1", "X", "t1"⟩, ⟨"a1", "Y", "t2"⟩]
    (by
      have h1 : (addHandler [] "A1" "X" "t1").1 = [⟨"A1", "X", "t1"⟩] := by decide
      have h2 : (addHandler [⟨"A1", "X", "t1"⟩] "a1" "Y" "t2").1 =
          [⟨"A1", "X", "t1"⟩, ⟨"a1", "Y", "t2"⟩] := by decide
      have r1 : Reachable [⟨"A1", "X", "t1"⟩] :=
        h1 ▸ Reachable.add [] "A1" "X" "t1" Reachable.empty
      exact h2 ▸ Reachable.add [⟨"A1", "X", "t1"⟩] "a1" "Y" "t2" r1)

/-! ## Claim C6: the normalize operation -/

theorem head?_dropWhile_false (p : α → Bool) :
    ∀ (l : List α) (x : α), (l.dropWhile p).head? = some x → p x = false
  | [], x => by simp
  | c :: ls, x => by
    by_cases hc : p c
    · rw [List.dropWhile_cons_of_pos hc]
      exact head?_dropWhile_false p ls x
    · rw [List.dropWhile_cons_of_neg hc]
      intro h
      obtain rfl : c = x := by simpa using h
      simpa using hc

theorem getLast?_dropWhile (p : α → Bool) :
    ∀ (l : List α) (x : α), (l.dropWhile p).getLast? = some x →
      l.getLast? = some x
  | [], x => by simp
  | c :: ls, x => by
    by_cases hc : p c
    · rw [List.dropWhile_cons_of_pos hc]
      intro h
      have hx := getLast?_dropWhile p ls x h
      cases ls with
      | nil => simp at hx
      | cons b bs => rw [List.getLast?_cons_cons]; exact hx
    · rw [List.dropWhile_cons_of_neg hc]
      exact fun h => h

/-- C6 counterexample: the app's text cleaning does not collapse interior
whitespace or replace line breaks — it only strips the ends. -/
theorem c6_counterexample : normalize "Foo\nbar   baz " ≠ "Foo bar baz" := by
  decide

/-- C6 amended: `normalize` is total and pure, and exactly trims leading
and trailing whitespace (Python `str.strip()`): the input splits as
all-whitespace prefix ++ output ++ all-whitespace suffix, and the output
neither starts nor ends with a whitespace character.  Interior
whitespace, line breaks included, is preserved:
`normalize "Foo\nbar   baz "` is `"Foo\nbar   baz"`, not
`"Foo bar baz"`; `normalize ""` is `""`. -/
theorem c6_normalize_strips_only :
    normalize "Foo\nbar   baz " = "Foo\nbar   baz" ∧
    normalize "" = "" ∧
    ∀ s : String, ∃ pre post : List Char,
      s.data = pre ++ (normalize s).data ++ post ∧
      (∀ c ∈ pre, isPySpace c = true) ∧
      (∀ c ∈ post, isPySpace c = true) ∧
      (normalize s).data.head?.all (fun c => !isPySpace c) = true ∧
      (normalize s).data.getLast?.all (fun c => !isPySpace c) = true := by
  refine ⟨by decide, rfl, ?_⟩
  intro s
  have hout : (normalize s).data =
      ((s.data.dropWhile isPySpace).reverse.dropWhile isPySpace).reverse := rfl
  set a := s.data.dropWhile isPySpace with ha
  set b := a.reverse.dropWhile isPySpace with hb
  refine ⟨s.data.takeWhile isPySpace, (a.reverse.takeWhile isPySpace).reverse,
    ?_, ?_, ?_, ?_, ?_⟩
  · rw [hout]
    have h1 : s.data = s.data.takeWhile isPySpace ++ a := by
      rw [ha, List.takeWhile_append_dropWhile]
    have h2 : a.reverse = a.reverse.takeWhile isPySpace ++ b := by
      rw [hb, List.takeWhile_append_dropWhile]
    have h3 : a = b.reverse ++ (a.reverse.takeWhile isPySpace).reverse := by
      have := congrArg List.reverse h2
      simpa using this
    rw [List.append_assoc]
    rw [← h3]
    exact h1
  · intro c hc
    exact List.mem_takeWhile_imp hc
  · intro c hc
    rw [List.mem_reverse] at hc
    exact List.mem_takeWhile_imp hc
  · rw [hout, List.head?_reverse]
    cases hg : b.getLast? with
    | none => rfl
    | some x =>
      have h1 : a.reverse.getLast? = some x := getLast?_dropWhile _ _ _ hg
      rw [List.getLast?_reverse] at h1
      have h2 : isPySpace x = false := head?_dropWhile_false _ _ _ h1
      simp [Option.all, h2]
  · rw [hout, List.getLast?_reverse]
    cases hg : b.head? with
    | none => rfl
    | some x =>
      have h2 : isPySpace x = false := head?_dropWhile_false _ _ _ hg
      simp [Option.all, h2]

theorem c6_witness :
    ∃ pre post : List Char,
      " x ".data = pre ++ (normalize " x ").data ++ post ∧
      (∀ c ∈ pre, isPySpace c = true) ∧
      (∀ c ∈ post, isPySpace c = true) ∧
      (normalize " x ").data.head?.all (fun c => !isPySpace c) = true ∧
      (normalize " x ").data.getLast?.all (fun c => !isPySpace c) = true :=
  c6_normalize_strips_only.2.2 " x "

/-! ## Claim C7: the combine operation -/

/-- C7 counterexample: non-blank fragments are joined with `" | "`, not
with a single space. -/
theorem c7_counterexample :
    pyStrip "a" ≠ "" ∧ pyStrip "b" ≠ "" ∧ combine ["a", "b"] ≠ "a b" := by
  decide

/-- C7 amended: `combine` drops blank (empty or whitespace-only)
fragments and joins the remaining ones with the separator `" | "`
(so a single surviving fragment is returned as is, and an empty or
all-blank input yields the empty string). -/
theorem c7_pipe_join :
    combine ["", "  ", "Alpha"] = "Alpha" ∧
    combine ["", ""] = "" ∧
    combine [] = "" ∧
    (∀ fs : List String, (∀ t ∈ fs, pyStrip t = "") → combine fs = "") ∧
    (∀ f g : String, pyStrip f ≠ "" → pyStrip g ≠ "" →
      combine [f, g] = f ++ " | " ++ g) := by
  refine ⟨by decide, by decide, rfl, ?_, ?_⟩
  · intro fs h
    unfold combine
    have hf : fs.filter (fun t => pyStrip t ≠ "") = [] := by
      rw [List.filter_eq_nil_iff]
      intro t ht
      simpa using h t ht
    rw [hf]
    rfl
  · intro f g hf hg
    unfold combine
    rw [List.filter_cons_of_pos (by simpa using hf),
      List.filter_cons_of_pos (by simpa using hg)]
    rfl

theorem c7_witness :
    combine ["x", "y"] = "x | y" ∧ combine ["   "] = "" :=
  ⟨c7_pipe_join.2.2.2.2 "x" "y" (by decide) (by decide),
    c7_pipe_join.2.2.2.1 ["   "] (by decide)⟩

/-! ## Claim C9: failure handling at the OCR boundary -/

/-- C9 counterexample: a timeout (or any transport-level exception) in
the external call is not caught by `ocr_bytes` — it propagates as a
raised exception instead of being converted into a message plus empty
text, and it likewise propagates out of `run_ocr`. -/
theorem c9_counterexample :
    ocr_bytes (Except.error NetError.timeout) =
      Except.error NetError.timeout ∧
    run_ocr [Except.error NetError.timeout] =
      Except.error NetError.timeout :=
  ⟨rfl, rfl⟩

/-- C9 amended: provider errors reported inside a received OCR response
are caught and converted into a user-visible message plus empty text for
that image, but transport-level failures (timeout, HTTP error status)
raise through `ocr_bytes`/`run_ocr` uncaught and abort the script run;
in either case no exception reaches ledger mutation logic, and the
ledger is unchanged whenever any OCR step raised. -/
theorem c9_boundary_amended :
    (∀ (r : VisionResp) (m : String), r.errorMsg = some m →
      ocr_bytes (Except.ok r) =
        Except.ok (some ("Google Vision error: " ++ m), "")) ∧
    (∀ (log : List Entry) (calls : List (Except NetError VisionResp))
      (coord desc now : String) (clicked : Bool) (e : NetError),
      run_ocr calls = Except.error e →
      scriptRun log calls coord desc now clicked = log) := by
  constructor
  · intro r m h
    cases r with
    | mk err texts =>
      cases h
      rfl
  · intro log calls coord desc now clicked e h
    unfold scriptRun
    rw [h]

theorem c9_witness :
    ocr_bytes (Except.ok ⟨some "boom", ["ignored"]⟩) =
      Except.ok (some ("Google Vision error: " ++ "boom"), "") ∧
    scriptRun [⟨"A1", "X", "t0"⟩] [Except.error NetError.timeout]
        "B2" "D" "t1" true =
      [⟨"A1", "X", "t0"⟩] :=
  ⟨c9_boundary_amended.1 ⟨some "boom", ["ignored"]⟩ "boom" rfl,
    c9_boundary_amended.2 [⟨"A1", "X", "t0"⟩] [Except.error NetError.timeout]
      "B2" "D" "t1" true NetError.timeout rfl⟩

/-! ## CSV round-trip machinery

`qstate cs b` is the quote parity after scanning `cs` from parity `b`;
`noTop sep cs b` says no occurrence of `sep` in `cs` sits at parity
`false` (outside quotes). -/

def qstate : List Char → Bool → Bool
  | [], b => b
  | c :: cs, b => qstate cs (if c = '"' then !b else b)

def noTop (sep : Char) : List Char → Bool → Prop
  | [], _ => True
  | c :: cs, b => ¬(c = sep ∧ b = false) ∧ noTop sep cs (if c = '"' then !b else b)

theorem qstate_append (a : List Char) :
    ∀ (b : List Char) (s : Bool), qstate (a ++ b) s = qstate b (qstate a s) := by
  induction a with
  | nil => intro b s; rfl
  | cons c cs ih =>
    intro b s
    simp only [List.cons_append, qstate]
    exact ih b _

theorem noTop_append (sep : Char) (a : List Char) :
    ∀ (b : List Char) (s : Bool), noTop sep a s → noTop sep b (qstate a s) →
      noTop sep (a ++ b) s := by
  induction a with
  | nil => intro b s _ hb; exact hb
  | cons c cs ih =>
    intro b s ha hb
    exact ⟨ha.1, ih b _ ha.2 hb⟩

/-- Scanning a safe chunk `e` (no top-level separator, parity returning
to `false`) commutes with the quote-aware split. -/
theorem splitQA_append (sep : Char) (e : List Char) :
    ∀ (cs : List Char) (b : Bool), noTop sep e b → qstate e b = false →
      splitQA sep b (e ++ cs) =
        (e ++ (splitQA sep false cs).1, (splitQA sep false cs).2) := by
  induction e with
  | nil =>
    intro cs b _ h2
    have hb : b = false := h2
    subst hb
    rfl
  | cons c e ih =>
    intro cs b h1 h2
    have hc : ¬(c = sep ∧ b = false) := h1.1
    have hrec := ih cs (if c = '"' then !b else b) h1.2 h2
    simp only [List.cons_append, splitQA, if_neg hc, List.append_eq]
    rw [hrec]

theorem qstate_dupQ : ∀ (f : List Char) (b : Bool), qstate (dupQ f) b = b := by
  intro f
  induction f with
  | nil => intro b; rfl
  | cons c cs ih =>
    intro b
    by_cases hc : c = '"'
    · simp only [dupQ, if_pos hc, qstate, if_pos, Bool.not_not]
      exact ih b
    · simp only [dupQ, if_neg hc, qstate, if_neg hc]
      exact ih b

theorem noTop_dupQ (sep : Char) (hsep : sep ≠ '"') :
    ∀ f : List Char, noTop sep (dupQ f) true := by
  intro f
  induction f with
  | nil => exact trivial
  | cons c cs ih =>
    by_cases hc : c = '"'
    · simp only [dupQ, if_pos hc, noTop, hc, if_pos]
      exact ⟨by simp, by
        simp only [if_pos rfl, Bool.not_true, Bool.not_false]
        exact ⟨fun h => hsep h.1.symm, ih⟩⟩
    · simp only [dupQ, if_neg hc, noTop, if_neg hc]
      exact ⟨by simp, ih⟩

theorem noTop_plain (sep : Char) (f : List Char)
    (h : ∀ c ∈ f, c ≠ sep ∧ c ≠ '"') :
    noTop sep f false ∧ qstate f false = false := by
  induction f with
  | nil => exact ⟨trivial, rfl⟩
  | cons c cs ih =>
    have hc := h c (.head _)
    have ih' := ih fun x hx => h x (.tail _ hx)
    refine ⟨⟨fun hh => hc.1 hh.1, ?_⟩, ?_⟩
    · rw [if_neg hc.2]
      exact ih'.1
    · simp only [qstate, if_neg hc.2]
      exact ih'.2

theorem escField_safe (sep : Char) (hsep : sep = ',' ∨ sep = '\n')
    (f : List Char) :
    noTop sep (escField f) false ∧ qstate (escField f) false = false := by
  have hq : sep ≠ '"' := by rcases hsep with h | h <;> subst h <;> decide
  by_cases hn : needsQuote f = true
  · rw [escField, if_pos hn]
    constructor
    · refine ⟨fun h => hq h.1.symm, ?_⟩
      simp only [if_pos rfl, Bool.not_false]
      exact noTop_append sep (dupQ f) ['"'] true (noTop_dupQ sep hq f)
        (by
          rw [qstate_dupQ]
          exact ⟨by simp, trivial⟩)
    · simp only [qstate, if_pos rfl, Bool.not_false]
      rw [qstate_append, qstate_dupQ]
      rfl
  · rw [escField, if_neg hn]
    refine noTop_plain sep f ?_
    intro c hc
    have : ¬(c = ',' || c = '"' || c = '\n' || c = '\r') = true := by
      intro hx
      exact hn (List.any_eq_true.mpr ⟨c, hc, hx⟩)
    simp only [Bool.or_eq_true, decide_eq_true_eq, not_or] at this
    rcases hsep with h | h <;> subst h
    · exact ⟨this.1.1.1, this.1.1.2⟩
    · exact ⟨this.1.2, this.1.1.2⟩

/-- Splitting a serialized record at commas recovers the serialized
fields. -/
theorem splitQA_rowChars (f : List Char) :
    ∀ fs : List (List Char),
      splitQA ',' false (rowChars (f :: fs)) = (escField f, fs.map escField) := by
  intro fs
  induction fs generalizing f with
  | nil =>
    have h := escField_safe ',' (Or.inl rfl) f
    have hx := splitQA_append ',' (escField f) [] false h.1 h.2
    simpa [rowChars, splitQA] using hx
  | cons g fs ih =>
    have h := escField_safe ',' (Or.inl rfl) f
    have hstep := splitQA_append ',' (escField f)
      (',' :: rowChars (g :: fs)) false h.1 h.2
    simp only [rowChars]
    rw [hstep]
    have hsep : splitQA ',' false (',' :: rowChars (g :: fs)) =
        ([], (splitQA ',' false (rowChars (g :: fs))).1 ::
          (splitQA ',' false (rowChars (g :: fs))).2) := by
      simp [splitQA]
    rw [hsep, ih g]
    simp

/-- A serialized record is safe with respect to the line separator. -/
theorem rowChars_safe :
    ∀ fs : List (List Char),
      noTop '\n' (rowChars fs) false ∧ qstate (rowChars fs) false = false := by
  intro fs
  induction fs with
  | nil => exact ⟨trivial, rfl⟩
  | cons f tail ih =>
    cases tail with
    | nil =>
      simpa [rowChars] using escField_safe '\n' (Or.inr rfl) f
    | cons g ts =>
      have hf := escField_safe '\n' (Or.inr rfl) f
      simp only [rowChars]
      constructor
      · refine noTop_append '\n' (escField f) (',' :: rowChars (g :: ts))
          false hf.1 ?_
        rw [hf.2]
        exact ⟨by simp, by
          simp only [if_neg (by decide : ¬ (',' : Char) = '"')]
          exact ih.1⟩
      · rw [qstate_append, hf.2]
        simp only [qstate, if_neg (by decide : ¬ (',' : Char) = '"')]
        exact ih.2

/-- Splitting a serialized CSV file at unquoted newlines recovers the
serialized records, plus one empty chunk for the trailing terminator. -/
theorem splitAll_csvChars :
    ∀ records : List (List (List Char)),
      splitAll '\n' (csvChars records) = records.map rowChars ++ [[]] := by
  intro records
  induction records with
  | nil => rfl
  | cons r rs ih =>
    have hr := rowChars_safe r
    have hstep := splitQA_append '\n' (rowChars r)
      ('\n' :: csvChars rs) false hr.1 hr.2
    have hcsv : csvChars (r :: rs) = rowChars r ++ '\n' :: csvChars rs := by
      simp [csvChars]
    unfold splitAll
    rw [hcsv, hstep]
    have hsep : splitQA '\n' false ('\n' :: csvChars rs) =
        ([], (splitQA '\n' false (csvChars rs)).1 ::
          (splitQA '\n' false (csvChars rs)).2) := by
      simp [splitQA]
    rw [hsep]
    unfold splitAll at ih
    simp only [List.map_cons, List.cons_append]
    rw [← ih]
    simp

theorem unquoteAux_open (xs : List Char) :
    unquoteAux false ('"' :: xs) = unquoteAux true xs := by
  simp [unquoteAux]

theorem unquoteAux_pair (xs : List Char) :
    unquoteAux true ('"' :: xs) = '"' :: unquoteAux false xs := by
  simp [unquoteAux]

theorem unquoteAux_plain (c : Char) (xs : List Char) (hc : c ≠ '"') :
    unquoteAux false (c :: xs) = c :: unquoteAux false xs := by
  simp [unquoteAux, hc]

theorem unquoteAux_dupQ : ∀ f : List Char, unquoteAux false (dupQ f ++ ['"']) = f := by
  intro f
  induction f with
  | nil => rfl
  | cons c cs ih =>
    by_cases hc : c = '"'
    · subst hc
      rw [show dupQ ('"' :: cs) = '"' :: '"' :: dupQ cs from by simp [dupQ]]
      rw [List.cons_append, List.cons_append, unquoteAux_open, unquoteAux_pair, ih]
    · rw [show dupQ (c :: cs) = c :: dupQ cs from by simp [dupQ, hc]]
      rw [List.cons_append, unquoteAux_plain c _ hc, ih]

theorem unesc_cons_ne (c : Char) (rest : List Char) (hc : c ≠ '"') :
    unesc (c :: rest) = c :: rest := by
  unfold unesc
  split
  · rename_i h
    cases h
    exact absurd rfl hc
  · rfl

/-- Field-level round trip: parsing a serialized field recovers it. -/
theorem unesc_escField (f : List Char) : unesc (escField f) = f := by
  by_cases hn : needsQuote f = true
  · rw [escField, if_pos hn]
    show unquote (dupQ f ++ ['"']) = f
    exact unquoteAux_dupQ f
  · rw [escField, if_neg hn]
    cases f with
    | nil => rfl
    | cons c rest =>
      have hc : c ≠ '"' := by
        intro h
        apply hn
        exact List.any_eq_true.mpr ⟨c, .head _, by simp [h]⟩
      exact unesc_cons_ne c rest hc

/-- Record-level round trip. -/
theorem parseRecord_rowChars (f : List Char) (fs : List (List Char)) :
    parseRecord (rowChars (f :: fs)) =
      (f :: fs).map (fun x => (⟨x⟩ : String)) := by
  unfold parseRecord splitAll
  rw [splitQA_rowChars f fs]
  simp only [List.map_cons, List.map_map]
  rw [unesc_escField]
  refine congrArg _ ?_
  exact List.map_congr_left fun x _ => by
    simp [Function.comp, unesc_escField]

/-- File-level round trip: parsing a serialized CSV file recovers every
record, provided each record has at least one field. -/
theorem parseCsv_csvChars (records : List (List (List Char)))
    (h : ∀ r ∈ records, r ≠ []) :
    parseCsv ⟨csvChars records⟩ =
      records.map (fun r => r.map (fun x => (⟨x⟩ : String))) := by
  unfold parseCsv
  have hsplit : splitAll '\n' (String.mk (csvChars records)).data =
      records.map rowChars ++ [[]] := splitAll_csvChars records
  simp only [hsplit]
  rw [if_pos (List.getLast?_concat _)]
  rw [List.dropLast_concat]
  rw [List.map_map]
  refine List.map_congr_left ?_
  intro r hr
  cases hre : r with
  | nil => exact absurd hre (h r hr)
  | cons f fs =>
    show parseRecord (rowChars (f :: fs)) = _
    rw [parseRecord_rowChars f fs]

/-! ## Claims C8 and C10: the CSV exports -/

theorem parse_exportPairs (log : List Entry) :
    parseCsv (exportPairsCsv log) =
      ["Coordinate", "Description"] ::
        (sortLog log).map (fun e => [e.Coordinate, e.Description]) := by
  unfold exportPairsCsv
  rw [parseCsv_csvChars]
  · simp only [List.map_cons, List.map_map, List.map_nil]
    refine congrArg₂ _ rfl ?_
    refine List.map_congr_left fun e _ => ?_
    rfl
  · intro r hr
    rcases List.mem_cons.mp hr with hh | hh
    · subst hh; simp
    · rcases List.mem_map.mp hh with ⟨e, _, he⟩
      subst he; simp

theorem parse_exportFull (log : List Entry) :
    parseCsv (exportFullCsv log) =
      ["Coordinate", "Description", "Timestamp"] ::
        (sortLog log).map
          (fun e => [e.Coordinate, e.Description, e.Timestamp]) := by
  unfold exportFullCsv
  rw [parseCsv_csvChars]
  · simp only [List.map_cons, List.map_map, List.map_nil]
    refine congrArg₂ _ rfl ?_
    refine List.map_congr_left fun e _ => ?_
    rfl
  · intro r hr
    rcases List.mem_cons.mp hr with hh | hh
    · subst hh; simp
    · rcases List.mem_map.mp hh with ⟨e, _, he⟩
      subst he; simp

/-- C8: the `Coordinate,Description` CSV export has a header row and one
row per entry (the UTF-8 encoding of the serialized text is bijective,
so we state this at the string level), and parsing the CSV back yields
rows whose fields are exactly the Coordinate and Description values of
the exported snapshot, which is a permutation of the ledger. -/
theorem c8_csv_round_trip (log : List Entry) :
    parseCsv (exportPairsCsv log) =
      ["Coordinate", "Description"] ::
        (sortLog log).map (fun e => [e.Coordinate, e.Description]) ∧
    (parseCsv (exportPairsCsv log)).length = log.length + 1 ∧
    (sortLog log).Perm log := by
  have hperm : (sortLog log).Perm log := List.perm_insertionSort coordLe log
  refine ⟨parse_exportPairs log, ?_, hperm⟩
  rw [parse_exportPairs log]
  simp [hperm.length_eq]

/-- C10: both CSV exports emit their data rows sorted lexicographically
by the Coordinate string (never in insertion order): the parsed rows are
those of the sorted snapshot, the first column of the parsed data rows
is `lexLe`-sorted, and the rows are a permutation of the ledger's. -/
theorem c10_exports_sorted (log : List Entry) (h : log ≠ []) :
    parseCsv (exportFullCsv log) =
      ["Coordinate", "Description", "Timestamp"] ::
        (sortLog log).map
          (fun e => [e.Coordinate, e.Description, e.Timestamp]) ∧
    ((parseCsv (exportFullCsv log)).tail.map (fun r => r.headI)).Pairwise
      (fun a b : String => lexLe a.data b.data = true) ∧
    ((parseCsv (exportPairsCsv log)).tail.map (fun r => r.headI)).Pairwise
      (fun a b : String => lexLe a.data b.data = true) ∧
    ((parseCsv (exportFullCsv log)).tail.map (fun r => r.headI)).Perm
      (log.map (·.Coordinate)) := by
  have hsorted : (sortLog log).Pairwise coordLe :=
    List.sorted_insertionSort coordLe log
  have hperm : (sortLog log).Perm log := List.perm_insertionSort coordLe log
  have hfull : (parseCsv (exportFullCsv log)).tail.map (fun r => r.headI) =
      (sortLog log).map (·.Coordinate) := by
    rw [parse_exportFull log]
    simp [List.map_map, Function.comp]
  have hpairs : (parseCsv (exportPairsCsv log)).tail.map (fun r => r.headI) =
      (sortLog log).map (·.Coordinate) := by
    rw [parse_exportPairs log]
    simp [List.map_map, Function.comp]
  refine ⟨parse_exportFull log, ?_, ?_, ?_⟩
  · rw [hfull]
    exact hsorted.map _ (fun a b hab => hab)
  · rw [hpairs]
    exact hsorted.map _ (fun a b hab => hab)
  · rw [hfull]
    exact hperm.map _

theorem c10_witness :
    ([⟨"B2", "x", "t1"⟩, ⟨"A1", "y", "t2"⟩] : List Entry) ≠ [] ∧
    parseCsv (exportFullCsv [⟨"B2", "x", "t1"⟩, ⟨"A1", "y", "t2"⟩]) =
      ["Coordinate", "Description", "Timestamp"] ::
        (sortLog [⟨"B2", "x", "t1"⟩, ⟨"A1", "y", "t2"⟩]).map
          (fun e => [e.Coordinate, e.Description, e.Timestamp]) :=
  ⟨by decide,
    (c10_exports_sorted [⟨"B2", "x", "t1"⟩, ⟨"A1", "y", "t2"⟩] (by decide)).1⟩

end FreezerApp
